import Mathlib

/-!
# Verification of the monres time-series alerting engine

Shallow embedding, in Lean 4, of the algorithmic core of the `monres`
resource monitor (Go), together with proofs about it:

* the counter rate calculators (`internal/collector/network.go`,
  `internal/collector` disk stats file);
* the metric history buffer (`internal/history/buffer.go`);
* the alert rule evaluator and fire/resolve state machine
  (`internal/alerter/rule.go`, `internal/alerter/alerter.go`).

Modelling conventions:

* Go `uint64` values are natural numbers; every arithmetic operation that
  the machine performs modulo `2 ^ 64` is written with an explicit
  `% 2 ^ 64` (see `u64sub`, `u64add`, `u64mul`).
* Go `float64` metric values, thresholds and rates are modelled as exact
  rationals (`ℚ`).
* Go `time.Time` and `time.Duration` are modelled as integer nanosecond
  counts (`ℤ`), which is exactly the precision of `time.Duration`.
* A Go map with "missing key acts as empty slice" semantics is modelled as
  a total function `String → List DataPoint` defaulting to `[]`; this is
  faithful because every operation of the buffer treats a missing key and
  an empty slice identically.
* Mutex acquisition/release is dropped: each embedded operation models the
  body of one lock-scoped Go operation.
-/

namespace Monres

/-- The modulus of unsigned 64-bit arithmetic. -/
def U64MOD : ℕ := 2 ^ 64

/-- Go `math.MaxUint64`. -/
def MaxUint64 : ℕ := U64MOD - 1

/-- Go `uint64` subtraction `a - b` (wraps modulo `2 ^ 64`); both
arguments are assumed reduced, i.e. `< 2 ^ 64`. -/
def u64sub (a b : ℕ) : ℕ := (U64MOD + a - b) % U64MOD

/-- Go `uint64` addition (wraps modulo `2 ^ 64`). -/
def u64add (a b : ℕ) : ℕ := (a + b) % U64MOD

/-- Go `uint64` multiplication (wraps modulo `2 ^ 64`). -/
def u64mul (a b : ℕ) : ℕ := (a * b) % U64MOD

/-- `NetworkStats` (src/internal/collector/network.go): aggregated
network I/O counters. -/
structure NetworkStats where
  totalRecvBytes : ℕ
  totalSentBytes : ℕ
deriving DecidableEq

/-- `DiskStats` (disk collector file, src/unnamed/part_007): aggregated
disk I/O counters, in sectors. -/
structure DiskStats where
  totalSectorsRead : ℕ
  totalSectorsWritten : ℕ
deriving DecidableEq

/-- `sectorSize` constant of the disk collector: 512 bytes per sector. -/
def sectorSize : ℕ := 512

/-- Per-counter delta of `CalculateNetworkIORates` in its current
revision (src/internal/collector/network.go lines 219-246): on
wrap-around (`curr < prev`) the delta is
`(math.MaxUint64 - prev) + curr + 1`, computed in `uint64` arithmetic. -/
def calcDelta (prev curr : ℕ) : ℕ :=
  if curr ≥ prev then u64sub curr prev
  else u64add (u64add (u64sub MaxUint64 prev) curr) 1

/-- Per-counter delta of the earlier revision of
`CalculateNetworkIORates` (src/internal/collector/network.go lines
85-106) and of `CalculateDiskIORates` (src/unnamed/part_007 lines
95-116): the initial `curr - prev` (wrapping `uint64` subtraction) is
overwritten by plain `curr` when the counter wrapped. -/
def calcDeltaResetToCurr (prev curr : ℕ) : ℕ :=
  if curr < prev then curr else u64sub curr prev

/-- `CalculateNetworkIORates` (current revision, network.go lines
219-246): received/sent bytes per second.  The `float64` results are
modelled as exact rationals. -/
def CalculateNetworkIORates (prev curr : NetworkStats) (elapsedSeconds : ℚ) :
    ℚ × ℚ :=
  if elapsedSeconds ≤ 0 then (0, 0)
  else
    ((calcDelta prev.totalRecvBytes curr.totalRecvBytes : ℚ) / elapsedSeconds,
     (calcDelta prev.totalSentBytes curr.totalSentBytes : ℚ) / elapsedSeconds)

/-- The earlier revision of `CalculateNetworkIORates` (network.go lines
85-106): on wrap-around the delta is reset to `curr` ("treat as if
started from 0 for this period"). -/
def CalculateNetworkIORatesV1 (prev curr : NetworkStats) (elapsedSeconds : ℚ) :
    ℚ × ℚ :=
  if elapsedSeconds ≤ 0 then (0, 0)
  else
    ((calcDeltaResetToCurr prev.totalRecvBytes curr.totalRecvBytes : ℚ) / elapsedSeconds,
     (calcDeltaResetToCurr prev.totalSentBytes curr.totalSentBytes : ℚ) / elapsedSeconds)

/-- `CalculateDiskIORates` (src/unnamed/part_007 lines 95-116): read and
written bytes per second; the sector deltas use the same
reset-to-`curr` wrap handling as the early network revision, and the
byte count is the `uint64` product `delta * sectorSize`. -/
def CalculateDiskIORates (prev curr : DiskStats) (elapsedSeconds : ℚ) :
    ℚ × ℚ :=
  if elapsedSeconds ≤ 0 then (0, 0)
  else
    ((u64mul (calcDeltaResetToCurr prev.totalSectorsRead curr.totalSectorsRead) sectorSize : ℚ)
       / elapsedSeconds,
     (u64mul (calcDeltaResetToCurr prev.totalSectorsWritten curr.totalSectorsWritten) sectorSize : ℚ)
       / elapsedSeconds)

/-! ## Metric history buffer (src/internal/history/buffer.go) -/

/-- Nanoseconds in one second (`time.Second`). -/
def nsPerSecond : ℤ := 1000000000

/-- Nanoseconds in one millisecond (`time.Millisecond`). -/
def nsPerMillisecond : ℤ := 1000000

/-- `DataPoint` (buffer.go): one (timestamp, value) sample; the
timestamp is in nanoseconds. -/
structure DataPoint where
  timestamp : ℤ
  value : ℚ
deriving DecidableEq

/-- The `buffers` map of `MetricHistoryBuffer`: metric name to sample
slice, with a missing key reading as the empty list. -/
def BufferMap : Type := String → List DataPoint

/-- The empty (freshly constructed) buffer map. -/
def emptyBuffer : BufferMap := fun _ => []

/-- The `maxDataPoints` capacity computed by `NewMetricHistoryBuffer`
(buffer.go lines 21-38).  Arguments are durations in nanoseconds; Go's
`maxAge.Seconds()/collectionInterval.Seconds()` float division is
modelled as exact rational division, and the Go `int(...)` conversion
(truncation toward zero; the quotient is positive here) as `Int.floor`. -/
def NewMetricHistoryBufferCapacity (maxAge collectionInterval : ℤ) : ℤ :=
  if maxAge ≤ 0 ∨ collectionInterval ≤ 0 then 60
  else
    let maxDataPoints :=
      ⌊((maxAge : ℚ) / (nsPerSecond : ℚ)) / ((collectionInterval : ℚ) / (nsPerSecond : ℚ))⌋ + 1
    if maxDataPoints < 2 then 2 else maxDataPoints

/-- Appending one point to one metric's slice, with eviction
(the slice manipulation inside `AddDataPoint`, buffer.go lines 42-57):
append, then keep only the newest `maxDataPoints` entries. -/
def addPoint (maxDataPoints : ℕ) (points : List DataPoint) (p : DataPoint) :
    List DataPoint :=
  let ps := points ++ [p]
  if ps.length > maxDataPoints then ps.drop (ps.length - maxDataPoints) else ps

/-- `AddDataPoint` (buffer.go lines 42-57) on the whole buffer map. -/
def AddDataPoint (maxDataPoints : ℕ) (hb : BufferMap) (metricName : String)
    (value : ℚ) (timestamp : ℤ) : BufferMap :=
  fun m =>
    if m = metricName then
      addPoint maxDataPoints (hb metricName) ⟨timestamp, value⟩
    else hb m

/-- `GetDataPointsForDuration` (buffer.go lines 61-91).  For
`duration = 0` it returns the latest point, if any.  Otherwise it walks
the slice backwards, stopping at the first point with
`Timestamp.Before(startTime)` where `startTime = now - (duration + 1s)`,
and reverses the collected points: this is the longest suffix all of
whose timestamps are `≥ startTime`, in stored order. -/
def GetDataPointsForDuration (hb : BufferMap) (metricName : String)
    (duration : ℤ) (now : ℤ) : List DataPoint :=
  let points := hb metricName
  if points = [] then []
  else if duration = 0 then
    match points.getLast? with
    | some p => [p]
    | none => []
  else
    let startTime := now - (duration + 1 * nsPerSecond)
    ((points.reverse.takeWhile (fun dp => decide (startTime ≤ dp.timestamp))).reverse)

/-- `GetLatestDataPoint` (buffer.go lines 94-103): the most recent point
for a metric, or `none` (Go: `(DataPoint{}, false)`). -/
def GetLatestDataPoint (hb : BufferMap) (metricName : String) :
    Option DataPoint :=
  (hb metricName).getLast?

/-! ## Alert rule evaluator (src/internal/alerter/rule.go) -/

/-- The error taxonomy of `Evaluate` (rule.go returns `fmt.Errorf`
values; the three distinct failure families are modelled as an
inductive). -/
inductive EvalError where
  | insufficientData
  | unknownAggregation
  | unknownCondition
deriving DecidableEq

/-- `AlertRuleConfig` (the fields of `config.AlertRuleConfig` that the
evaluator and state machine read); `duration` is in nanoseconds. -/
structure AlertRuleConfig where
  name : String
  metric : String
  condition : String
  threshold : ℚ
  duration : ℤ
  aggregation : String
deriving DecidableEq

/-- ASCII case folding of one character, agreeing with Go's
`strings.ToLower` on the ASCII strings the evaluator compares against. -/
def goToLowerChar (c : Char) : Char :=
  if 'A' ≤ c ∧ c ≤ 'Z' then Char.ofNat (c.toNat + 32) else c

/-- `strings.ToLower`, restricted to ASCII case folding. -/
def goToLower (s : String) : String :=
  ⟨s.data.map goToLowerChar⟩

/-- The condition switch at the end of `Evaluate` (rule.go lines
96-112): `none` models the `UnknownCondition` default branch. -/
def evalCondition (cond : String) (v threshold : ℚ) : Option Bool :=
  match cond with
  | ">" => some (decide (v > threshold))
  | "<" => some (decide (v < threshold))
  | "=" => some (decide (v = threshold))
  | "!=" => some (decide (v ≠ threshold))
  | ">=" => some (decide (v ≥ threshold))
  | "<=" => some (decide (v ≤ threshold))
  | _ => none

/-- The result triple of `Evaluate`: `(conditionMet, aggregatedValue,
err)`. -/
structure EvalResult where
  conditionMet : Bool
  aggregatedValue : ℚ
  err : Option EvalError
deriving DecidableEq

/-- `Evaluate` (rule.go lines 37-114).  Mirrors the Go control flow:
the two empty-input guards, then the instantaneous (`duration == 0`,
latest point) or duration-based (aggregation switch on
`strings.ToLower(Aggregation)`) computation of `valueToCompare`, then
the condition switch. -/
def Evaluate (ar : AlertRuleConfig) (points : List DataPoint) : EvalResult :=
  if points.length = 0 ∧ 0 < ar.duration then ⟨false, 0, some .insufficientData⟩
  else if points.length = 0 ∧ ar.duration = 0 then ⟨false, 0, some .insufficientData⟩
  else
    let valueToCompare : Except EvalError ℚ :=
      if ar.duration = 0 then
        match points.getLast? with
        | some p => .ok p.value
        | none => .error .insufficientData
      else
        match points with
        | [] => .error .insufficientData
        | p :: _ =>
          match goToLower ar.aggregation with
          | "average" =>
              .ok ((points.foldl (fun s dp => s + dp.value) 0) / (points.length : ℚ))
          | "max" =>
              .ok (points.foldl (fun v dp => if dp.value > v then dp.value else v) p.value)
          | _ => .error .unknownAggregation
    match valueToCompare with
    | .error e => ⟨false, 0, some e⟩
    | .ok v =>
      match evalCondition ar.condition v ar.threshold with
      | some met => ⟨met, v, none⟩
      | none => ⟨false, v, some .unknownCondition⟩

/-! ## Alert state machine (src/internal/alerter/alerter.go) -/

/-- `EventType` (alerter.go): `FIRED` / `RESOLVED`. -/
inductive EventType where
  | fired
  | resolved
deriving DecidableEq

/-- `AlertState` (rule.go lines 13-19). -/
structure AlertState where
  isActive : Bool
  lastActiveTime : ℤ
  lastResolvedTime : ℤ
  lastValue : ℚ
deriving DecidableEq

/-- Runtime `AlertRule` (rule.go lines 21-25): configuration plus
mutable state. -/
structure AlertRule where
  cfg : AlertRuleConfig
  state : AlertState
deriving DecidableEq

/-- `AlertEvent` (alerter.go lines 22-29); the `Rule` pointer is
represented by the rule name, and the optional `TriggeringPoints`
field is omitted (never set by `CheckAndNotify`). -/
structure AlertEvent where
  ruleName : String
  type : EventType
  hostname : String
  timestamp : ℤ
  metricValue : ℚ
deriving DecidableEq

/-- The fire/resolve transition inside the per-rule loop of
`CheckAndNotify` (alerter.go lines 102-134): fire when the condition is
met and the rule is inactive, resolve when it is not met and the rule is
active, otherwise change nothing and emit nothing. -/
def applyTransition (now : ℤ) (hostname : String) (rule : AlertRule)
    (conditionMet : Bool) (aggregatedValue : ℚ) : AlertRule × Option AlertEvent :=
  if conditionMet = true ∧ rule.state.isActive = false then
    ({ rule with
        state := { rule.state with
          isActive := true, lastActiveTime := now, lastValue := aggregatedValue } },
     some ⟨rule.cfg.name, .fired, hostname, now, aggregatedValue⟩)
  else if conditionMet = false ∧ rule.state.isActive = true then
    ({ rule with
        state := { rule.state with
          isActive := false, lastResolvedTime := now, lastValue := aggregatedValue } },
     some ⟨rule.cfg.name, .resolved, hostname, now, aggregatedValue⟩)
  else (rule, none)

/-- One iteration of the rule loop of `CheckAndNotify` (alerter.go lines
66-135) for one rule: window query, the duration-based sufficiency
guards (empty window, and window span below `Duration - 100ms`), the
instantaneous latest-point path, `Evaluate`, and the fire/resolve
transition.  Every `continue` of the Go loop is `(rule, none)`: no state
change and no event. -/
def checkRule (hb : BufferMap) (hostname : String) (now : ℤ)
    (rule : AlertRule) : AlertRule × Option AlertEvent :=
  let metricValuePoints :=
    GetDataPointsForDuration hb rule.cfg.metric rule.cfg.duration now
  let evalStep : List DataPoint → AlertRule × Option AlertEvent := fun pts =>
    let r := Evaluate rule.cfg pts
    match r.err with
    | some _ => (rule, none)
    | none => applyTransition now hostname rule r.conditionMet r.aggregatedValue
  if 0 < rule.cfg.duration then
    match metricValuePoints with
    | [] => (rule, none)
    | firstPoint :: _ =>
      if now - firstPoint.timestamp < rule.cfg.duration - 100 * nsPerMillisecond then
        (rule, none)
      else evalStep metricValuePoints
  else
    match GetLatestDataPoint hb rule.cfg.metric with
    | none => (rule, none)
    | some latestDP => evalStep [latestDP]

/-- Driving one rule through a sequence of evaluation cycles: each cycle
supplies the buffer contents and the clock, `checkRule` threads the rule
state, and the emitted events are collected in order. -/
def runCheckCycles (hostname : String) :
    AlertRule → List (BufferMap × ℤ) → List AlertEvent
  | _, [] => []
  | rule, (hb, now) :: rest =>
    match checkRule hb hostname now rule with
    | (rule2, some e) => e :: runCheckCycles hostname rule2 rest
    | (rule2, none) => runCheckCycles hostname rule2 rest

/-! ## Definitions taken from the spec's wording, for comparison -/

/-- The per-metric capacity as the spec words it:
"`ceil(maxAlertDuration / collectionInterval) + 1`, floored at 2"
(durations in nanoseconds; the quotient is the same in any unit). -/
def specCeilCapacity (maxAge collectionInterval : ℤ) : ℤ :=
  max 2 (⌈(maxAge : ℚ) / (collectionInterval : ℚ)⌉ + 1)

/-- The window query as the spec words it: "exactly the stored samples
whose timestamp is `>= t - d - 1s`" (in stored order). -/
def specWindowFilter (hb : BufferMap) (metricName : String)
    (duration : ℤ) (now : ℤ) : List DataPoint :=
  (hb metricName).filter
    (fun dp => decide (now - (duration + 1 * nsPerSecond) ≤ dp.timestamp))

/-- The last `c` elements of a list, in order: the intended contents of
a series of capacity `c` after any number of appends. -/
def keepNewest (c : ℕ) (l : List DataPoint) : List DataPoint :=
  l.drop (l.length - c)

/-- The earliest (minimum) timestamp among the points `p :: rest`. -/
def earliestTimestamp (p : DataPoint) (rest : List DataPoint) : ℤ :=
  rest.foldl (fun m q => min m q.timestamp) p.timestamp

instance : IsTrans DataPoint (fun a b => a.timestamp ≤ b.timestamp) :=
  ⟨fun _ _ _ h1 h2 => le_trans h1 h2⟩

/-! ## Counter rate calculators: wrap-around behaviour (claim C1) -/

/-- The current network revision's delta under wrap-around is the
spec's formula, as exact natural-number arithmetic. -/
lemma calcDelta_wrap (prev curr : ℕ) (h1 : curr < prev) (h2 : prev ≤ MaxUint64) :
    calcDelta prev curr = (MaxUint64 - prev) + curr + 1 := by
  unfold calcDelta u64sub u64add MaxUint64 U64MOD at *
  norm_num at h2 ⊢
  rw [if_neg (by omega)]
  omega

/-- The reset-to-`curr` variant keeps only `curr` under wrap-around. -/
lemma calcDeltaResetToCurr_wrap (prev curr : ℕ) (h1 : curr < prev) :
    calcDeltaResetToCurr prev curr = curr := by
  unfold calcDeltaResetToCurr
  rw [if_pos h1]

/-- C1 (counterexample): the claim says `CalculateDiskIORates` computes
the wrapped delta as `(MAX_UINT64 - prev) + curr + 1` sectors before
converting to bytes and dividing; at `prev = MAX_UINT64 - 1000`,
`curr = 2000`, `elapsed = 1.0` that would give `3001 * 512` bytes/s, but
the code returns `2000 * 512 = 1024000` bytes/s (it resets the delta to
`curr` on wrap). -/
theorem disk_wraparound_delta_counterexample :
    (CalculateDiskIORates ⟨MaxUint64 - 1000, 0⟩ ⟨2000, 0⟩ 1).1 = 1024000 ∧
    ((1024000 : ℚ) ≠ (((MaxUint64 - (MaxUint64 - 1000)) + 2000 + 1) * sectorSize : ℕ)) := by
  constructor
  · norm_num [CalculateDiskIORates, calcDeltaResetToCurr, u64sub, u64mul,
      sectorSize, MaxUint64, U64MOD]
  · norm_num [MaxUint64, U64MOD, sectorSize]

/-- C1 (amended): under wrap-around (`curr < prev`, counters `≤
MAX_UINT64`) and `elapsedSeconds > 0`, the current revision of
`CalculateNetworkIORates` computes the delta as
`(MAX_UINT64 - prev) + curr + 1` before dividing by `elapsedSeconds`
(shown for the recv and sent counters), and in particular
`rate(MAX_UINT64 - 1000, 2000, 1.0) = 3001.0`; the earlier network
revision and `CalculateDiskIORates` instead reset the delta to `curr`,
treating the counter as restarted from zero. -/
theorem wraparound_delta_revisions (pn cn : NetworkStats) (pd cd : DiskStats)
    (e : ℚ) (he : 0 < e) :
    (cn.totalRecvBytes < pn.totalRecvBytes → pn.totalRecvBytes ≤ MaxUint64 →
      (CalculateNetworkIORates pn cn e).1
        = (((MaxUint64 - pn.totalRecvBytes) + cn.totalRecvBytes + 1 : ℕ) : ℚ) / e) ∧
    (cn.totalSentBytes < pn.totalSentBytes → pn.totalSentBytes ≤ MaxUint64 →
      (CalculateNetworkIORates pn cn e).2
        = (((MaxUint64 - pn.totalSentBytes) + cn.totalSentBytes + 1 : ℕ) : ℚ) / e) ∧
    (cn.totalRecvBytes < pn.totalRecvBytes →
      (CalculateNetworkIORatesV1 pn cn e).1 = ((cn.totalRecvBytes : ℕ) : ℚ) / e) ∧
    (cd.totalSectorsRead < pd.totalSectorsRead →
        cd.totalSectorsRead * sectorSize < U64MOD →
      (CalculateDiskIORates pd cd e).1 = ((cd.totalSectorsRead * sectorSize : ℕ) : ℚ) / e) ∧
    (CalculateNetworkIORates ⟨MaxUint64 - 1000, 0⟩ ⟨2000, 0⟩ 1).1 = 3001 := by
  have hne : ¬ e ≤ 0 := not_le.mpr he
  refine ⟨?_, ?_, ?_, ?_, ?_⟩
  · intro h1 h2
    simp [CalculateNetworkIORates, hne, calcDelta_wrap _ _ h1 h2]
  · intro h1 h2
    simp [CalculateNetworkIORates, hne, calcDelta_wrap _ _ h1 h2]
  · intro h1
    simp [CalculateNetworkIORatesV1, hne, calcDeltaResetToCurr_wrap _ _ h1]
  · intro h1 hsz
    simp [CalculateDiskIORates, hne, calcDeltaResetToCurr_wrap _ _ h1,
      u64mul, Nat.mod_eq_of_lt hsz]
  · norm_num [CalculateNetworkIORates, calcDelta, u64sub, u64add, MaxUint64, U64MOD]

/-- C1 witness: the amended theorem instantiated at concrete inputs. -/
theorem wraparound_delta_revisions_witness :
    (CalculateNetworkIORates ⟨MaxUint64 - 1000, 0⟩ ⟨2000, 0⟩ 1).1 = 3001 :=
  (wraparound_delta_revisions ⟨0, 0⟩ ⟨0, 0⟩ ⟨0, 0⟩ ⟨0, 0⟩ 1 (by norm_num)).2.2.2.2

/-! ## History buffer capacity (claim C2) -/

/-- C2 (counterexample): at `maxAge = 5s`, `collectionInterval = 2s`
(both exact in `float64` seconds) the code computes capacity
`int(5.0/2.0) + 1 = 3`, while the claimed
`ceil(maxAlertDuration / collectionInterval) + 1` is `4`. -/
theorem capacity_ceil_counterexample :
    NewMetricHistoryBufferCapacity 5000000000 2000000000 ≠
      specCeilCapacity 5000000000 2000000000 := by
  have h1 : NewMetricHistoryBufferCapacity 5000000000 2000000000 = 3 := by
    norm_num [NewMetricHistoryBufferCapacity, nsPerSecond]
  have hc : ⌈((5000000000 : ℤ) : ℚ) / ((2000000000 : ℤ) : ℚ)⌉ = 3 := by
    rw [show (((5000000000 : ℤ) : ℚ) / ((2000000000 : ℤ) : ℚ)) = 5 / 2 by norm_num]
    rw [Int.ceil_eq_iff]
    norm_num
  have h2 : specCeilCapacity 5000000000 2000000000 = 4 := by
    unfold specCeilCapacity
    rw [hc]
    rfl
  omega

/-- C2 (amended): for positive `maxAlertDuration` and
`collectionInterval`, the capacity is exactly
`floor(maxAlertDuration / collectionInterval) + 1` (truncating integer
conversion of the float quotient), floored at 2 — and hence never less
than 2. -/
theorem capacity_floor_plus_one (maxAge collectionInterval : ℤ)
    (h1 : 0 < maxAge) (h2 : 0 < collectionInterval) :
    NewMetricHistoryBufferCapacity maxAge collectionInterval
      = max 2 (⌊(maxAge : ℚ) / (collectionInterval : ℚ)⌋ + 1) ∧
    2 ≤ NewMetricHistoryBufferCapacity maxAge collectionInterval := by
  have hg : ¬ (maxAge ≤ 0 ∨ collectionInterval ≤ 0) := by omega
  have hi : (collectionInterval : ℚ) ≠ 0 := by
    exact_mod_cast (by omega : collectionInterval ≠ 0)
  have hns : ((nsPerSecond : ℤ) : ℚ) ≠ 0 := by norm_num [nsPerSecond]
  have hdiv : ((maxAge : ℚ) / (nsPerSecond : ℚ)) / ((collectionInterval : ℚ) / (nsPerSecond : ℚ))
      = (maxAge : ℚ) / (collectionInterval : ℚ) := by
    field_simp
  constructor
  · simp only [NewMetricHistoryBufferCapacity, hg, if_false, hdiv]
    rcases le_or_lt 2 (⌊(maxAge : ℚ) / (collectionInterval : ℚ)⌋ + 1) with h | h
    · rw [if_neg (by omega), max_eq_right h]
    · rw [if_pos (by omega), max_eq_left (by omega)]
  · simp only [NewMetricHistoryBufferCapacity, hg, if_false]
    split <;> omega

/-- C2 witness: the amended theorem at `maxAge = 5s`, interval `2s`. -/
theorem capacity_floor_plus_one_witness :
    NewMetricHistoryBufferCapacity 5000000000 2000000000
      = max 2 (⌊((5000000000 : ℤ) : ℚ) / ((2000000000 : ℤ) : ℚ)⌋ + 1) ∧
    2 ≤ NewMetricHistoryBufferCapacity 5000000000 2000000000 :=
  capacity_floor_plus_one 5000000000 2000000000 (by norm_num) (by norm_num)

/-! ## Evaluator: empty input, aggregation, case folding
(claims C8, C7, C10) -/

/-- C8: for every rule (whatever its duration), `Evaluate` on an empty
point sequence returns the `InsufficientData` error together with
`conditionMet = false` (and value 0), never a successful result. -/
theorem evaluate_empty_insufficient_data (ar : AlertRuleConfig) :
    Evaluate ar [] =
      ⟨false, 0, some EvalError.insufficientData⟩ := by
  unfold Evaluate
  rcases lt_trichotomy ar.duration 0 with h | h | h
  · rw [if_neg (by simp; omega), if_neg (by simp; omega)]
    simp only [List.getLast?_nil]
    rw [if_neg (by omega)]
  · rw [if_neg (by simp; omega), if_pos (by simp [h])]
  · rw [if_pos (by simp [h])]

/-- C6: `GetDataPointsForDuration(m, 0, t)` returns at most one sample;
when `GetLatestDataPoint(m)` returns a sample, the returned singleton is
exactly that sample (timestamp and value); when the metric has no
samples both report absence. -/
theorem window_zero_is_latest (hb : BufferMap) (name : String) (t : ℤ) :
    (GetDataPointsForDuration hb name 0 t).length ≤ 1 ∧
    (∀ dp, GetLatestDataPoint hb name = some dp →
      GetDataPointsForDuration hb name 0 t = [dp]) ∧
    (GetLatestDataPoint hb name = none →
      GetDataPointsForDuration hb name 0 t = []) := by
  unfold GetDataPointsForDuration GetLatestDataPoint
  rcases hpts : hb name with _ | ⟨p, rest⟩
  · simp
  · have hne : p :: rest ≠ [] := by simp
    rw [if_neg hne, if_pos rfl]
    rcases hlast : (p :: rest).getLast? with _ | q
    · simp at hlast
    · simp [hlast]

/-- C6 witness: a one-point buffer. -/
theorem window_zero_is_latest_witness :
    GetDataPointsForDuration (fun _ => [⟨1, 2⟩]) "m" 0 5 = [⟨1, 2⟩] :=
  (window_zero_is_latest (fun _ => [⟨1, 2⟩]) "m" 5).2.1 ⟨1, 2⟩ rfl

/-- Both aggregation branches read the aggregation mode only through
`strings.ToLower`, so a rule behaves exactly as its lower-cased
spelling. -/
lemma evaluate_aggregation_lower (ar : AlertRuleConfig) (points : List DataPoint)
    (s : String) (hs : goToLower ar.aggregation = goToLower s) :
    Evaluate ar points = Evaluate { ar with aggregation := s } points := by
  unfold Evaluate
  simp only [hs]

/-- C10: the aggregation mode is matched case-insensitively: any
capitalization whose lower-casing is "average" (resp. "max") behaves
exactly like the canonical spelling and never fails with the
unknown-aggregation error. -/
theorem aggregation_case_insensitive (ar : AlertRuleConfig)
    (p : DataPoint) (rest : List DataPoint) (hd : 0 < ar.duration) :
    (goToLower ar.aggregation = "average" →
      Evaluate ar (p :: rest) = Evaluate { ar with aggregation := "average" } (p :: rest) ∧
      (Evaluate ar (p :: rest)).err ≠ some EvalError.unknownAggregation) ∧
    (goToLower ar.aggregation = "max" →
      Evaluate ar (p :: rest) = Evaluate { ar with aggregation := "max" } (p :: rest) ∧
      (Evaluate ar (p :: rest)).err ≠ some EvalError.unknownAggregation) := by
  constructor
  · intro h
    refine ⟨evaluate_aggregation_lower ar (p :: rest) "average" (by rw [h]; rfl), ?_⟩
    unfold Evaluate
    rw [if_neg (by simp), if_neg (by simp), if_neg (by omega)]
    simp only [h]
    split <;> simp
  · intro h
    refine ⟨evaluate_aggregation_lower ar (p :: rest) "max" (by rw [h]; rfl), ?_⟩
    unfold Evaluate
    rw [if_neg (by simp), if_neg (by simp), if_neg (by omega)]
    simp only [h]
    split <;> simp

/-- C10 witness: "Average" and "MAX" are accepted. -/
theorem aggregation_case_insensitive_witness :
    Evaluate ⟨"r", "m", ">", 45, 1000000000, "Average"⟩ [⟨0, 50⟩]
      = Evaluate ⟨"r", "m", ">", 45, 1000000000, "average"⟩ [⟨0, 50⟩] ∧
    (Evaluate ⟨"r", "m", ">", 45, 1000000000, "MAX"⟩ [⟨0, 50⟩]).err
      ≠ some EvalError.unknownAggregation :=
  ⟨((aggregation_case_insensitive ⟨"r", "m", ">", 45, 1000000000, "Average"⟩
      ⟨0, 50⟩ [] (by norm_num)).1 rfl).1,
   ((aggregation_case_insensitive ⟨"r", "m", ">", 45, 1000000000, "MAX"⟩
      ⟨0, 50⟩ [] (by norm_num)).2 rfl).2⟩

/-- Folded sum equals the list sum of the values. -/
lemma foldl_add_values (points : List DataPoint) :
    points.foldl (fun s dp => s + dp.value) 0 = (points.map DataPoint.value).sum := by
  rw [List.sum_eq_foldl, List.foldl_map]

/-- The running-max fold of `Evaluate`'s "max" branch yields either its
initial value or a member, is bounded below by the initial value, and
bounds every member from above. -/
lemma foldl_runmax_spec (l : List DataPoint) : ∀ init : ℚ,
    (l.foldl (fun v dp => if dp.value > v then dp.value else v) init = init ∨
      l.foldl (fun v dp => if dp.value > v then dp.value else v) init
        ∈ l.map DataPoint.value) ∧
    init ≤ l.foldl (fun v dp => if dp.value > v then dp.value else v) init ∧
    ∀ q ∈ l, q.value ≤ l.foldl (fun v dp => if dp.value > v then dp.value else v) init := by
  induction l with
  | nil => intro init; simp
  | cons x xs ih =>
    intro init
    rcases ih (if x.value > init then x.value else init) with ⟨hmem, hle, hub⟩
    refine ⟨?_, ?_, ?_⟩
    · simp only [List.foldl_cons]
      rcases hmem with h | h
      · rw [h]
        split_ifs with hx
        · right; simp
        · left; rfl
      · right
        simp only [List.map_cons]
        exact List.mem_cons_of_mem _ h
    · simp only [List.foldl_cons]
      refine le_trans ?_ hle
      split_ifs with hx
      · exact le_of_lt hx
      · exact le_rfl
    · intro q hq
      rcases List.mem_cons.mp hq with rfl | hq
      · simp only [List.foldl_cons]
        refine le_trans ?_ hle
        split_ifs with hx
        · exact le_rfl
        · exact not_lt.mp hx
      · simpa using hub q hq

/-- C7: for a duration-based rule on a non-empty window, "average"
aggregation compares (for condition ">") the arithmetic mean against the
threshold and reports the mean as the representative value; "max" uses a
member of the window that bounds all window values; and the spec's
scenario (samples 40, 50, 60, aggregation average, threshold 45,
condition ">") evaluates to `(true, 50.0)` with no error. -/
theorem evaluate_duration_aggregation (ar : AlertRuleConfig)
    (p : DataPoint) (rest : List DataPoint) (hd : 0 < ar.duration) :
    (goToLower ar.aggregation = "average" →
      (Evaluate ar (p :: rest)).aggregatedValue
          = ((p :: rest).map DataPoint.value).sum / ((p :: rest).length : ℚ) ∧
      (ar.condition = ">" →
        (Evaluate ar (p :: rest)).conditionMet
          = decide (((p :: rest).map DataPoint.value).sum / ((p :: rest).length : ℚ)
              > ar.threshold))) ∧
    (goToLower ar.aggregation = "max" →
      (Evaluate ar (p :: rest)).aggregatedValue ∈ (p :: rest).map DataPoint.value ∧
      (∀ q ∈ p :: rest, q.value ≤ (Evaluate ar (p :: rest)).aggregatedValue) ∧
      (ar.condition = ">" →
        (Evaluate ar (p :: rest)).conditionMet
          = decide ((Evaluate ar (p :: rest)).aggregatedValue > ar.threshold))) ∧
    Evaluate ⟨"cpu avg", "cpu_percent_total", ">", 45, 60000000000, "average"⟩
        [⟨0, 40⟩, ⟨1000000000, 50⟩, ⟨2000000000, 60⟩] = ⟨true, 50, none⟩ := by
  refine ⟨?_, ?_, ?_⟩
  · intro h
    unfold Evaluate
    rw [if_neg (by simp), if_neg (by simp), if_neg (by omega)]
    simp only [h, foldl_add_values]
    constructor
    · split <;> rfl
    · intro hcond
      rw [hcond]
      simp [evalCondition]
  · intro h
    unfold Evaluate
    rw [if_neg (by simp), if_neg (by simp), if_neg (by omega)]
    simp only [h]
    rcases foldl_runmax_spec (p :: rest) p.value with ⟨hmem, hle, hub⟩
    have hval : List.foldl (fun v dp => if dp.value > v then dp.value else v) p.value (p :: rest)
        ∈ (p :: rest).map DataPoint.value := by
      rcases hmem with h1 | h1
      · rw [h1]; simp
      · exact h1
    refine ⟨?_, ?_, ?_⟩
    · split <;> simpa using hval
    · intro q hq
      have := hub q hq
      split <;> simpa using this
    · intro hcond
      rw [hcond]
      simp [evalCondition]
  · have h : goToLower "average" = "average" := rfl
    simp [Evaluate, h, evalCondition]
    norm_num

/-- C7 witness: the scenario conjunct at the concrete rule and window. -/
theorem evaluate_duration_aggregation_witness :
    Evaluate ⟨"cpu avg", "cpu_percent_total", ">", 45, 60000000000, "average"⟩
        [⟨0, 40⟩, ⟨1000000000, 50⟩, ⟨2000000000, 60⟩] = ⟨true, 50, none⟩ :=
  (evaluate_duration_aggregation ⟨"cpu avg", "cpu_percent_total", ">", 45, 60000000000, "average"⟩
    ⟨0, 40⟩ [⟨1000000000, 50⟩, ⟨2000000000, 60⟩] (by norm_num)).2.2

/-! ## Buffer append/eviction is FIFO (claim C3) -/

/-- The last-`c` view never exceeds `c` elements. -/
lemma keepNewest_length (c : ℕ) (l : List DataPoint) :
    (keepNewest c l).length ≤ c := by
  simp [keepNewest]
  omega

/-- One eviction step preserves the last-`c` view. -/
lemma addPoint_keepNewest (c : ℕ) (l : List DataPoint) (p : DataPoint) :
    addPoint c (keepNewest c l) p = keepNewest c (l ++ [p]) := by
  unfold addPoint keepNewest
  show (if (List.drop (l.length - c) l ++ [p]).length > c
      then (List.drop (l.length - c) l ++ [p]).drop
        ((List.drop (l.length - c) l ++ [p]).length - c)
      else List.drop (l.length - c) l ++ [p])
    = (l ++ [p]).drop ((l ++ [p]).length - c)
  rcases le_or_lt c l.length with h | h
  · have h2 : (List.drop (l.length - c) l ++ [p]).length = c + 1 := by
      simp
      omega
    rw [if_pos (by rw [h2]; omega), h2]
    have h3 : List.drop (l.length - c) l ++ [p] = (l ++ [p]).drop (l.length - c) :=
      (List.drop_append_of_le_length (by omega)).symm
    rw [h3, List.drop_drop]
    congr 1
    simp
    omega
  · have h0 : l.length - c = 0 := by omega
    have h4 : (l ++ [p]).length - c = 0 := by simp; omega
    rw [h0, h4, List.drop_zero, List.drop_zero]
    rw [if_neg (by simp; omega)]

/-- Folding appends over a last-`c` view accumulates the appended
points. -/
lemma foldl_addPoint_keepNewest (c : ℕ) (inputs : List (ℚ × ℤ)) :
    ∀ acc : List DataPoint,
    inputs.foldl (fun pts vt => addPoint c pts ⟨vt.2, vt.1⟩) (keepNewest c acc)
      = keepNewest c (acc ++ inputs.map (fun vt => ⟨vt.2, vt.1⟩)) := by
  induction inputs with
  | nil => intro acc; simp
  | cons x xs ih =>
    intro acc
    simp only [List.foldl_cons, List.map_cons]
    rw [addPoint_keepNewest]
    have := ih (acc ++ [(⟨x.2, x.1⟩ : DataPoint)])
    rw [this]
    simp

/-- A sequence of `AddDataPoint` calls for one metric only touches that
metric's slice. -/
lemma addAll_apply (c : ℕ) (name : String) (inputs : List (ℚ × ℤ)) :
    ∀ hb : BufferMap,
    (inputs.foldl (fun b vt => AddDataPoint c b name vt.1 vt.2) hb) name
      = inputs.foldl (fun pts vt => addPoint c pts ⟨vt.2, vt.1⟩) (hb name) := by
  induction inputs with
  | nil => intro hb; rfl
  | cons x xs ih =>
    intro hb
    simp only [List.foldl_cons]
    rw [ih]
    congr 1
    show (AddDataPoint c hb name x.1 x.2) name = addPoint c (hb name) ⟨x.2, x.1⟩
    unfold AddDataPoint
    rw [if_pos rfl]

/-- C3: for any sequence of `(value, timestamp)` appends to one metric
of a fresh buffer with capacity `c` — whatever the timestamps, ordered
or not — the stored series never exceeds `c` points and equals exactly
the last `c` appended points in insertion order; in particular with
capacity 3, appending the values 0,1,2,3,4 at one-second steps leaves
the series `[2, 3, 4]`. -/
theorem buffer_fifo_eviction (c : ℕ) (name : String) (inputs : List (ℚ × ℤ)) :
    ((inputs.foldl (fun b vt => AddDataPoint c b name vt.1 vt.2) emptyBuffer) name).length ≤ c ∧
    (inputs.foldl (fun b vt => AddDataPoint c b name vt.1 vt.2) emptyBuffer) name
      = keepNewest c (inputs.map (fun vt => ⟨vt.2, vt.1⟩)) ∧
    (([((0 : ℚ), (0 : ℤ)), (1, 1000000000), (2, 2000000000),
        (3, 3000000000), (4, 4000000000)] : List (ℚ × ℤ)).foldl
        (fun b vt => AddDataPoint 3 b "m" vt.1 vt.2) emptyBuffer) "m"
      = [⟨2000000000, 2⟩, ⟨3000000000, 3⟩, ⟨4000000000, 4⟩] := by
  have key : ∀ (c' : ℕ) (nm : String) (inputs' : List (ℚ × ℤ)),
      (inputs'.foldl (fun b vt => AddDataPoint c' b nm vt.1 vt.2) emptyBuffer) nm
        = keepNewest c' (inputs'.map (fun vt => ⟨vt.2, vt.1⟩)) := by
    intro c' nm inputs'
    rw [addAll_apply]
    have h0 : (emptyBuffer nm : List DataPoint) = keepNewest c' [] := by
      simp [emptyBuffer, keepNewest]
    rw [h0, foldl_addPoint_keepNewest]
    simp
  refine ⟨?_, key c name inputs, ?_⟩
  · rw [key c name inputs]
    exact keepNewest_length c _
  · rw [key 3 "m" _]
    rfl

/-! ## Window queries on non-monotonic series (claim C5) -/

/-- C5 (counterexample): with stored series
`[(30s, 1), (5s, 2), (30s, 3), (20s, 4)]`, duration 1s, `now = 12s`
(cutoff 10s), the query returns `[(30s, 3), (20s, 4)]`: it is not the
set of all samples with timestamp `≥ 10s` (the first `(30s, 1)` sample
is dropped because the backward scan stops at `(5s, 2)`), and it is not
in chronological order. -/
theorem window_filter_counterexample :
    GetDataPointsForDuration
        (fun _ => [⟨30000000000, 1⟩, ⟨5000000000, 2⟩, ⟨30000000000, 3⟩, ⟨20000000000, 4⟩])
        "m" 1000000000 12000000000
      = [⟨30000000000, 3⟩, ⟨20000000000, 4⟩] ∧
    GetDataPointsForDuration
        (fun _ => [⟨30000000000, 1⟩, ⟨5000000000, 2⟩, ⟨30000000000, 3⟩, ⟨20000000000, 4⟩])
        "m" 1000000000 12000000000
      ≠ specWindowFilter
        (fun _ => [⟨30000000000, 1⟩, ⟨5000000000, 2⟩, ⟨30000000000, 3⟩, ⟨20000000000, 4⟩])
        "m" 1000000000 12000000000 ∧
    ¬ List.Chain' (fun a b => a.timestamp ≤ b.timestamp)
        (GetDataPointsForDuration
          (fun _ => [⟨30000000000, 1⟩, ⟨5000000000, 2⟩, ⟨30000000000, 3⟩, ⟨20000000000, 4⟩])
          "m" 1000000000 12000000000) := by
  refine ⟨by decide, by decide, ?_⟩
  intro hch
  rw [show GetDataPointsForDuration
      (fun _ => [⟨30000000000, 1⟩, ⟨5000000000, 2⟩, ⟨30000000000, 3⟩, ⟨20000000000, 4⟩])
      "m" 1000000000 12000000000
    = [⟨30000000000, 3⟩, ⟨20000000000, 4⟩] from by decide] at hch
  rw [List.chain'_cons] at hch
  exact absurd hch.1 (by decide)

/-- On a series whose stored timestamps are non-decreasing, the
backward-scan-with-break equals a plain filter on the cutoff. -/
lemma sorted_revTakeWhile_eq_filter (c : ℤ) (l : List DataPoint)
    (hs : List.Pairwise (fun a b => a.timestamp ≤ b.timestamp) l) :
    (l.reverse.takeWhile (fun dp => decide (c ≤ dp.timestamp))).reverse
      = l.filter (fun dp => decide (c ≤ dp.timestamp)) := by
  induction l using List.reverseRecOn with
  | nil => rfl
  | append_singleton ys y ih =>
    rw [List.pairwise_append] at hs
    rcases hs with ⟨hys, _, hrel⟩
    rw [List.reverse_append]
    simp only [List.reverse_singleton, List.singleton_append, List.takeWhile_cons]
    by_cases hy : c ≤ y.timestamp
    · rw [if_pos (by simpa using hy)]
      simp only [List.reverse_cons]
      rw [ih hys, List.filter_append]
      simp [hy]
    · rw [if_neg (by simpa using hy)]
      simp only [List.reverse_nil]
      rw [List.filter_append]
      have h1 : ys.filter (fun dp => decide (c ≤ dp.timestamp)) = [] := by
        rw [List.filter_eq_nil_iff]
        intro a ha
        have := hrel a ha y (by simp)
        simp
        omega
      simp [h1, hy]

/-- C5 (amended): for `d > 0` the query returns a suffix of the stored
series, every returned sample has timestamp `≥ t - d - 1s`, an unknown
or empty metric yields the empty sequence (never an error), and when
the stored timestamps are non-decreasing — the normal operating mode —
the result is exactly the stored samples with timestamp `≥ t - d - 1s`,
in chronological order. -/
theorem window_is_suffix (hb : BufferMap) (name : String) (d t : ℤ) (hd : 0 < d) :
    (∃ pre, hb name = pre ++ GetDataPointsForDuration hb name d t) ∧
    (∀ dp ∈ GetDataPointsForDuration hb name d t,
        t - (d + 1 * nsPerSecond) ≤ dp.timestamp) ∧
    (hb name = [] → GetDataPointsForDuration hb name d t = []) ∧
    (List.Chain' (fun a b => a.timestamp ≤ b.timestamp) (hb name) →
      GetDataPointsForDuration hb name d t = specWindowFilter hb name d t ∧
      List.Chain' (fun a b => a.timestamp ≤ b.timestamp)
        (GetDataPointsForDuration hb name d t)) := by
  unfold GetDataPointsForDuration specWindowFilter
  rcases hpts : hb name with _ | ⟨p, rest⟩
  · simp
  · rw [if_neg (by simp), if_neg (by omega)]
    refine ⟨?_, ?_, ?_, ?_⟩
    · refine ⟨((p :: rest).reverse.dropWhile
          (fun dp => decide (t - (d + 1 * nsPerSecond) ≤ dp.timestamp))).reverse, ?_⟩
      conv_lhs => rw [← List.reverse_reverse (p :: rest),
        ← List.takeWhile_append_dropWhile
          (p := fun dp => decide (t - (d + 1 * nsPerSecond) ≤ dp.timestamp))
          (l := (p :: rest).reverse),
        List.reverse_append]
    · intro dp hdp
      rw [List.mem_reverse] at hdp
      exact of_decide_eq_true (List.mem_takeWhile_imp
        (p := fun q : DataPoint => decide (t - (d + 1 * nsPerSecond) ≤ q.timestamp)) hdp)
    · intro h
      simp at h
    · intro hch
      have hpw : List.Pairwise (fun a b => a.timestamp ≤ b.timestamp) (p :: rest) :=
        List.chain'_iff_pairwise.mp hch
      have heq := sorted_revTakeWhile_eq_filter (t - (d + 1 * nsPerSecond)) (p :: rest) hpw
      refine ⟨heq, ?_⟩
      rw [heq]
      exact List.chain'_iff_pairwise.mpr (hpw.sublist (List.filter_sublist _))

/-- C5 witness: a sorted one-point buffer, where the query coincides
with the filter. -/
theorem window_is_suffix_witness :
    GetDataPointsForDuration (fun _ => [⟨1, 2⟩]) "m" 1000000000 0
      = specWindowFilter (fun _ => [⟨1, 2⟩]) "m" 1000000000 0 :=
  ((window_is_suffix (fun _ => [⟨1, 2⟩]) "m" 1000000000 0 (by norm_num)).2.2.2
    (by simp)).1

/-! ## Duration-based rules need enough history (claim C9) -/

/-- The running minimum of the timestamps never exceeds its seed. -/
lemma foldl_min_le_init (l : List DataPoint) : ∀ init : ℤ,
    l.foldl (fun m q => min m q.timestamp) init ≤ init := by
  induction l with
  | nil => intro init; simp
  | cons x xs ih =>
    intro init
    simp only [List.foldl_cons]
    exact le_trans (ih (min init x.timestamp)) (min_le_left ..)

/-- C9: for a duration-based rule, whenever `now` minus the earliest
timestamp of the queried window is below `duration - 100ms`, the
evaluation cycle skips the rule entirely: the rule state is unchanged
and no event is produced (hence `Evaluate` is never consulted). -/
theorem duration_rule_skips_short_span (hb : BufferMap) (hostname : String)
    (now : ℤ) (rule : AlertRule) (hd : 0 < rule.cfg.duration)
    (p : DataPoint) (rest : List DataPoint)
    (hwin : GetDataPointsForDuration hb rule.cfg.metric rule.cfg.duration now = p :: rest)
    (hspan : now - earliestTimestamp p rest < rule.cfg.duration - 100 * nsPerMillisecond) :
    checkRule hb hostname now rule = (rule, none) := by
  unfold checkRule
  rw [hwin, if_pos hd]
  have hfirst : now - p.timestamp < rule.cfg.duration - 100 * nsPerMillisecond := by
    have := foldl_min_le_init rest p.timestamp
    unfold earliestTimestamp at hspan
    omega
  exact if_pos hfirst

/-- C9 witness: a 10-second rule one second after a single sample. -/
theorem duration_rule_skips_short_span_witness :
    checkRule (fun _ => [⟨0, 1⟩]) "h" 1000000000
      ⟨⟨"r", "m", ">", 45, 10000000000, "average"⟩, ⟨false, 0, 0, 0⟩⟩
      = (⟨⟨"r", "m", ">", 45, 10000000000, "average"⟩, ⟨false, 0, 0, 0⟩⟩, none) :=
  duration_rule_skips_short_span (fun _ => [⟨0, 1⟩]) "h" 1000000000
    ⟨⟨"r", "m", ">", 45, 10000000000, "average"⟩, ⟨false, 0, 0, 0⟩⟩
    (by norm_num) ⟨0, 1⟩ [] (by decide) (by decide)

/-! ## Fire/resolve hysteresis (claim C4) -/

/-- Each transition either leaves the rule untouched with no event
(exactly when the condition matches the current activity flag) or flips
the activity flag and emits the event matching the old flag. -/
lemma applyTransition_spec (now : ℤ) (h : String) (rule : AlertRule)
    (met : Bool) (v : ℚ) :
    (applyTransition now h rule met v = (rule, none) ∧ met = rule.state.isActive) ∨
    (∃ r2 e, applyTransition now h rule met v = (r2, some e) ∧
      e.type = (if rule.state.isActive then EventType.resolved else EventType.fired) ∧
      r2.state.isActive = !rule.state.isActive) := by
  unfold applyTransition
  rcases met with _ | _ <;> rcases hact : rule.state.isActive with _ | _
  · left
    rw [if_neg (by simp), if_neg (by simp [hact])]
    exact ⟨rfl, rfl⟩
  · right
    rw [if_neg (by simp), if_pos (by simp [hact])]
    exact ⟨_, _, rfl, by simp [hact], by simp [hact]⟩
  · right
    rw [if_pos (by simp [hact])]
    exact ⟨_, _, rfl, by simp [hact], by simp [hact]⟩
  · left
    rw [if_neg (by simp [hact]), if_neg (by simp)]
    exact ⟨rfl, rfl⟩

/-- A full per-rule cycle either changes nothing and emits nothing, or
flips the activity flag, emitting the event matching the old flag. -/
lemma checkRule_spec (hb : BufferMap) (h : String) (now : ℤ) (rule : AlertRule) :
    checkRule hb h now rule = (rule, none) ∨
    (∃ r2 e, checkRule hb h now rule = (r2, some e) ∧
      e.type = (if rule.state.isActive then EventType.resolved else EventType.fired) ∧
      r2.state.isActive = !rule.state.isActive) := by
  have evalSpec : ∀ pts : List DataPoint,
      ((match (Evaluate rule.cfg pts).err with
        | some _ => (rule, none)
        | none => applyTransition now h rule (Evaluate rule.cfg pts).conditionMet
            (Evaluate rule.cfg pts).aggregatedValue) = (rule, none)) ∨
      (∃ r2 e, (match (Evaluate rule.cfg pts).err with
        | some _ => (rule, none)
        | none => applyTransition now h rule (Evaluate rule.cfg pts).conditionMet
            (Evaluate rule.cfg pts).aggregatedValue) = (r2, some e) ∧
        e.type = (if rule.state.isActive then EventType.resolved else EventType.fired) ∧
        r2.state.isActive = !rule.state.isActive) := by
    intro pts
    rcases herr : (Evaluate rule.cfg pts).err with _ | e0
    · rcases applyTransition_spec now h rule (Evaluate rule.cfg pts).conditionMet
          (Evaluate rule.cfg pts).aggregatedValue with ⟨ha, _⟩ | ⟨r2, e, ha, h2, h3⟩
      · left
        simp only [herr, ha]
      · right
        exact ⟨r2, e, by simp only [herr, ha], h2, h3⟩
    · left
      simp only [herr]
  unfold checkRule
  by_cases hd : 0 < rule.cfg.duration
  · rw [if_pos hd]
    rcases hwin : GetDataPointsForDuration hb rule.cfg.metric rule.cfg.duration now
        with _ | ⟨p, rest⟩
    · left
      rfl
    · by_cases hsp : now - p.timestamp < rule.cfg.duration - 100 * nsPerMillisecond
      · left
        exact if_pos hsp
      · have hred : (if now - p.timestamp < rule.cfg.duration - 100 * nsPerMillisecond
            then (rule, none)
            else (match (Evaluate rule.cfg (p :: rest)).err with
              | some _ => (rule, none)
              | none => applyTransition now h rule (Evaluate rule.cfg (p :: rest)).conditionMet
                  (Evaluate rule.cfg (p :: rest)).aggregatedValue))
            = (match (Evaluate rule.cfg (p :: rest)).err with
              | some _ => (rule, none)
              | none => applyTransition now h rule (Evaluate rule.cfg (p :: rest)).conditionMet
                  (Evaluate rule.cfg (p :: rest)).aggregatedValue) := if_neg hsp
        rcases evalSpec (p :: rest) with h1 | ⟨r2, e, h1, h2, h3⟩
        · left
          exact hred.trans h1
        · right
          exact ⟨r2, e, hred.trans h1, h2, h3⟩
  · rw [if_neg hd]
    rcases hlat : GetLatestDataPoint hb rule.cfg.metric with _ | dp
    · left
      rfl
    · rcases evalSpec [dp] with h1 | ⟨r2, e, h1, h2, h3⟩
      · left
        exact h1
      · right
        exact ⟨r2, e, h1, h2, h3⟩

/-- Events emitted across any cycle sequence alternate in type, and the
first one matches the initial activity flag. -/
lemma runCheckCycles_chain (h : String) :
    ∀ (cycles : List (BufferMap × ℤ)) (rule : AlertRule),
    List.Chain' (fun a b => a.type ≠ b.type) (runCheckCycles h rule cycles) ∧
    (∀ e, (runCheckCycles h rule cycles).head? = some e →
      e.type = (if rule.state.isActive then EventType.resolved else EventType.fired)) := by
  intro cycles
  induction cycles with
  | nil =>
    intro rule
    simp [runCheckCycles]
  | cons c rest ih =>
    intro rule
    rcases c with ⟨hb, now⟩
    rcases checkRule_spec hb h now rule with hnone | ⟨r2, e, hsome, htype, hact⟩
    · have hrun : runCheckCycles h rule ((hb, now) :: rest) = runCheckCycles h rule rest := by
        rw [runCheckCycles, hnone]
      rw [hrun]
      exact ih rule
    · have hrun : runCheckCycles h rule ((hb, now) :: rest)
          = e :: runCheckCycles h r2 rest := by
        rw [runCheckCycles, hsome]
      rw [hrun]
      rcases ih r2 with ⟨hch, hhead⟩
      constructor
      · rw [List.chain'_cons']
        refine ⟨?_, hch⟩
        intro e2 he2
        have h2 := hhead e2 he2
        rw [htype, h2, hact]
        cases rule.state.isActive <;> simp
      · intro e0 he0
        simp only [List.head?_cons, Option.some.injEq] at he0
        rw [← he0]
        exact htype

/-- C4: over any sequence of evaluation cycles for one rule, the
emitted events never contain two consecutive FIRED or two consecutive
RESOLVED events (consecutive emitted events always differ in type), and
a cycle whose condition outcome equals the rule's current `isActive`
flag emits no event and changes nothing. -/
theorem alert_events_alternate (hostname : String) (rule : AlertRule)
    (cycles : List (BufferMap × ℤ)) :
    List.Chain' (fun a b => a.type ≠ b.type) (runCheckCycles hostname rule cycles) ∧
    (∀ now met v, met = rule.state.isActive →
      applyTransition now hostname rule met v = (rule, none)) := by
  refine ⟨(runCheckCycles_chain hostname cycles rule).1, ?_⟩
  intro now met v hmet
  subst hmet
  unfold applyTransition
  cases hact : rule.state.isActive
  · rw [if_neg (by simp), if_neg (by simp)]
  · rw [if_neg (by simp), if_neg (by simp)]

/-- C4 witness: one cycle from an inactive rule with a no-op
transition. -/
theorem alert_events_alternate_witness :
    List.Chain' (fun a b => a.type ≠ b.type)
      (runCheckCycles "h" ⟨⟨"r", "m", ">", 45, 0, "average"⟩, ⟨false, 0, 0, 0⟩⟩
        [(emptyBuffer, 0)]) ∧
    applyTransition 0 "h" ⟨⟨"r", "m", ">", 45, 0, "average"⟩, ⟨false, 0, 0, 0⟩⟩ false 0
      = (⟨⟨"r", "m", ">", 45, 0, "average"⟩, ⟨false, 0, 0, 0⟩⟩, none) :=
  ⟨(alert_events_alternate "h" ⟨⟨"r", "m", ">", 45, 0, "average"⟩, ⟨false, 0, 0, 0⟩⟩
      [(emptyBuffer, 0)]).1,
   (alert_events_alternate "h" ⟨⟨"r", "m", ">", 45, 0, "average"⟩, ⟨false, 0, 0, 0⟩⟩
      [(emptyBuffer, 0)]).2 0 false 0 rfl⟩

end Monres
